import Mathlib

/-!
Shallow embedding of `code/phase_01_stock_screening.py`: the four-stage
stock-screening pipeline (Universe Builder, Fundamental Filter, Metrics
Collector, Composite Scorer).  Machine reals are modelled as `ℚ`; a pandas
`NaN` (or Python `None`) cell is modelled as `Option ℚ` with `none` as the
missing marker.  Python `round(x, 2)` (round half to even, two decimals) is
modelled exactly on `ℚ`.  External collaborators (Wikipedia listing, the
fundamentals and market-data providers) are passed in as explicit fetch
outcomes, with `none` modelling an exception caught by the source's
`try`/`except` blocks.
-/

namespace StockScreening

/-- Python `round` to the nearest integer, halves to even (banker's rounding). -/
def roundHalfEven (x : ℚ) : ℤ :=
  let f := ⌊x⌋
  let r := x - f
  if r < 1/2 then f
  else if 1/2 < r then f + 1
  else if f % 2 = 0 then f else f + 1

/-- Python `round(x, 2)`: round half to even at two decimal places. -/
def round2 (x : ℚ) : ℚ := (roundHalfEven (x * 100) : ℚ) / 100

/-- The parsed listing page: the table's column names and, for each column
name, the list of its cell values (`df[col].tolist()`). -/
structure ListingTable where
  columns : List String
  colValues : String → List String

/-- Source `get_sp500_tickers` (lines 39-58).  The argument is the outcome of the
fetch-and-parse step (`pd.read_html` + `tables[0]`): `none` models any
exception raised there, which the `except` block catches before returning
`[]`.  A table exposing neither recognised symbol column raises
`ValueError`, caught by the same `except` block, which again returns `[]`. -/
def get_sp500_tickers (fetched : Option ListingTable) : List String :=
  match fetched with
  | none => []
  | some tbl =>
    if tbl.columns.contains ("Symbol") then tbl.colValues ("Symbol")
    else if tbl.columns.contains ("Ticker symbol") then tbl.colValues ("Ticker symbol")
    else []

/-- Source `create_dataframe_with_tickers` (lines 61-76): returns the ticker
snapshot written to `data/01_va_sp500_tickers.csv`, or `none` when the
function returns early without writing (empty ticker list). -/
def create_dataframe_with_tickers (fetched : Option ListingTable)
    (test_mode : Bool) (test_count : Nat) : Option (List String) :=
  let tickers := get_sp500_tickers fetched
  if tickers.isEmpty then none
  else some (if test_mode then tickers.take test_count else tickers)

/-- Outcome of fetching `stock.financials` for one ticker:
`none` = an exception during fetch (the `except` branch skips the ticker);
`some none` = a financials table without a `'Net Income'` row;
`some (some vals)` = the `'Net Income'` row, one value per fiscal-period
column, most recent period first (the yfinance convention the source
comments on). -/
abbrev FinancialsFetch := Option (Option (List ℚ))

/-- The per-ticker retention test of `filter_by_net_income` (lines 99-127):
skip on fetch error, on a missing `'Net Income'` row, or on fewer than 3
fiscal columns; otherwise keep iff the 3 most recent values are all
strictly positive and `v2 ≤ v1 ≤ v0` (oldest ≤ middle ≤ newest). -/
def netIncomeKeep : FinancialsFetch → Bool
  | some (some (v0 :: v1 :: v2 :: _)) =>
      decide (0 < v0) && decide (0 < v1) && decide (0 < v2) &&
      decide (v2 ≤ v1) && decide (v1 ≤ v0)
  | _ => false

/-- Source `filter_by_net_income` (lines 79-132) restricted to its filtering
semantics: input ticker order is preserved, survivors only. -/
def filter_by_net_income (fetchFin : String → FinancialsFetch)
    (tickers : List String) : List String :=
  tickers.filter (fun t => netIncomeKeep (fetchFin t))

/-- Negative indexing `hist['Close'].iloc[-k]`: the `k`-th element
from the end (default `0` out of range; the guarded source never hits the
default). -/
def ilocNeg (l : List ℚ) (k : Nat) : ℚ := l.getD (l.length - k) 0

/-- Volume-metric block of `get_all_screening_metrics` (lines 164-173).
`vols` is the 30-day volume column in chronological order;
`rolling(20).mean().iloc[-1]` is the mean of the last 20 entries.  Returns
`none` exactly where the source stores `np.nan`. -/
def volume_ratio_metric (vols : List ℚ) : Option ℚ :=
  if 20 ≤ vols.length then
    let current_volume := ilocNeg vols 1
    let avg_volume_20d := (vols.drop (vols.length - 20)).sum / 20
    some (round2 (if 0 < avg_volume_20d then current_volume / avg_volume_20d else 0))
  else none

/-- Price-change block of `get_all_screening_metrics` (lines 175-188).
`closes` is the 30-day close column in chronological order; the result is
`(change_1d, change_5d, change_20d)`, with `none` where the source stores
`np.nan`. -/
def price_change_metrics (closes : List ℚ) : Option ℚ × Option ℚ × Option ℚ :=
  if 21 ≤ closes.length then
    let current_price := ilocNeg closes 1
    let price_1d := if 2 ≤ closes.length then ilocNeg closes 2 else current_price
    let price_5d := if 6 ≤ closes.length then ilocNeg closes 6 else current_price
    let price_20d := if 21 ≤ closes.length then ilocNeg closes 21 else current_price
    (some (if 0 < price_1d then round2 ((current_price - price_1d) / price_1d * 100) else 0),
     some (if 0 < price_5d then round2 ((current_price - price_5d) / price_5d * 100) else 0),
     some (if 0 < price_20d then round2 ((current_price - price_20d) / price_20d * 100) else 0))
  else (none, none, none)

/-- Number of column entries strictly below `v`. -/
def countLT (l : List ℚ) (v : ℚ) : ℕ := l.countP (fun x => decide (x < v))

/-- Number of column entries equal to `v`. -/
def countEQ (l : List ℚ) (v : ℚ) : ℕ := l.countP (fun x => decide (x = v))

/-- pandas `rank` (method `average`, the default) of value `v` within the
column `l`: the tie group of `v` occupies the ordinal ranks
`countLT + 1, …, countLT + countEQ`, and each member receives their mean. -/
def avgRank (l : List ℚ) (v : ℚ) : ℚ := countLT l v + ((countEQ l v : ℚ) + 1) / 2

/-- One entry of `values.rank(pct=True) * 100`. -/
def pctScore (l : List ℚ) (v : ℚ) : ℚ := avgRank l v / l.length * 100

/-- Source `normalize_score` (lines 242-245). -/
def normalize_score (l : List ℚ) : List ℚ := l.map (pctScore l)

/-- Membership form of `netIncomeKeep`. -/
theorem netIncomeKeep_iff (f : FinancialsFetch) :
    netIncomeKeep f = true ↔
      ∃ v0 v1 v2 rest, f = some (some (v0 :: v1 :: v2 :: rest)) ∧
        0 < v0 ∧ 0 < v1 ∧ 0 < v2 ∧ v2 ≤ v1 ∧ v1 ≤ v0 := by
  match f with
  | none => simp [netIncomeKeep]
  | some none => simp [netIncomeKeep]
  | some (some []) => simp [netIncomeKeep]
  | some (some [v0]) => simp [netIncomeKeep]
  | some (some [v0, v1]) => simp [netIncomeKeep]
  | some (some (v0 :: v1 :: v2 :: rest)) =>
      simp only [netIncomeKeep, Bool.and_eq_true, decide_eq_true_eq,
        Option.some.injEq, List.cons.injEq]
      constructor
      · rintro ⟨⟨⟨⟨h0, h1⟩, h2⟩, h21⟩, h10⟩
        exact ⟨v0, v1, v2, rest, ⟨rfl, rfl, rfl, rfl⟩, h0, h1, h2, h21, h10⟩
      · rintro ⟨a, b, c, r, ⟨rfl, rfl, rfl, rfl⟩, h0, h1, h2, h21, h10⟩
        exact ⟨⟨⟨⟨h0, h1⟩, h2⟩, h21⟩, h10⟩

/-- Claim C1: the Fundamental Filter retains a ticker iff its fetched
financials expose a Net Income row with at least 3 fiscal periods whose 3
most recent values are all strictly positive and non-decreasing in
chronological order (oldest `v2` ≤ middle `v1` ≤ newest `v0`); a ticker
with no Net Income row, fewer than 3 periods, or a failed fetch is
excluded. -/
theorem fundamental_filter_retention (fetchFin : String → FinancialsFetch)
    (tickers : List String) (t : String) :
    t ∈ filter_by_net_income fetchFin tickers ↔
      t ∈ tickers ∧
        ∃ v0 v1 v2 rest, fetchFin t = some (some (v0 :: v1 :: v2 :: rest)) ∧
          0 < v0 ∧ 0 < v1 ∧ 0 < v2 ∧ v2 ≤ v1 ∧ v1 ≤ v0 := by
  rw [filter_by_net_income, List.mem_filter, netIncomeKeep_iff]

/-- The external listing "cannot be parsed": either the fetch/parse step
raised, or the parsed table exposes neither recognised symbol column. -/
def listingUnparsable (fetched : Option ListingTable) : Prop :=
  fetched = none ∨
    ∃ tbl, fetched = some tbl ∧
      tbl.columns.contains ("Symbol") = false ∧
      tbl.columns.contains ("Ticker symbol") = false

/-- Claim C9: whenever the listing cannot be parsed (fetch exception or
missing symbol column), `get_sp500_tickers` returns the empty list instead
of raising, and `create_dataframe_with_tickers` treats that as "nothing to
screen": it stops without writing a universe snapshot (`none`). -/
theorem universe_builder_unparsable (fetched : Option ListingTable)
    (m : Bool) (k : Nat) (h : listingUnparsable fetched) :
    get_sp500_tickers fetched = [] ∧
      create_dataframe_with_tickers fetched m k = none := by
  have hg : get_sp500_tickers fetched = [] := by
    rcases h with rfl | ⟨tbl, rfl, h1, h2⟩
    · rfl
    · have h1m : "Symbol" ∉ tbl.columns := by simpa using h1
      have h2m : "Ticker symbol" ∉ tbl.columns := by simpa using h2
      simp [get_sp500_tickers, h1m, h2m]
  refine ⟨hg, ?_⟩
  simp [create_dataframe_with_tickers, hg]

/-- Witness for C9 at a concrete failed fetch. -/
theorem universe_builder_unparsable_witness :
    listingUnparsable (none : Option ListingTable) ∧
      get_sp500_tickers none = [] ∧
      create_dataframe_with_tickers none false 10 = none :=
  ⟨Or.inl rfl, universe_builder_unparsable none false 10 (Or.inl rfl)⟩

theorem round2_zero : round2 0 = 0 := by
  norm_num [round2, roundHalfEven]

/-- Counterexample to claim C6 as stated: with 20 days of data whose 20-day
mean volume is `0` (≤ 0), the source stores `0`, not the missing marker. -/
theorem volume_ratio_zero_mean_counterexample :
    volume_ratio_metric (List.replicate 20 0) = some 0 ∧
      volume_ratio_metric (List.replicate 20 0) ≠ none := by
  have h : volume_ratio_metric (List.replicate 20 0) = some 0 := by
    simp [volume_ratio_metric, List.sum_replicate, round2_zero]
  exact ⟨h, fun hc => by rw [h] at hc; exact Option.noConfusion hc⟩

/-- Amended C6 reference computation, written independently (via `reverse`):
missing iff fewer than 20 days of data; on a non-positive trailing 20-day
mean the ratio is `0` (not missing); otherwise the most recent day's volume
over the mean of the last 20 days, rounded to 2 decimals. -/
def volumeRatioRef (vols : List ℚ) : Option ℚ :=
  if vols.length < 20 then none
  else
    let mean20 := (vols.reverse.take 20).sum / 20
    if 0 < mean20 then some (round2 (vols.reverse.headD 0 / mean20)) else some 0

theorem take_reverse_sum (l : List ℚ) (n : Nat) (h : n ≤ l.length) :
    (l.reverse.take n).sum = (l.drop (l.length - n)).sum := by
  have hsplit : l = l.take (l.length - n) ++ l.drop (l.length - n) :=
    (List.take_append_drop _ _).symm
  have hlen : (l.drop (l.length - n)).reverse.length = n := by
    simp [List.length_reverse, List.length_drop]
    omega
  calc (l.reverse.take n).sum
      = (((l.take (l.length - n) ++ l.drop (l.length - n)).reverse).take n).sum := by
        rw [← hsplit]
    _ = (((l.drop (l.length - n)).reverse ++ (l.take (l.length - n)).reverse).take n).sum := by
        rw [List.reverse_append]
    _ = ((l.drop (l.length - n)).reverse).sum := by
        rw [List.take_left' hlen]
    _ = (l.drop (l.length - n)).sum := List.sum_reverse _

theorem ilocNeg_eq_reverse_getD (l : List ℚ) (k : Nat) (h1 : 1 ≤ k)
    (h2 : k ≤ l.length) :
    ilocNeg l k = l.reverse.getD (k - 1) 0 := by
  unfold ilocNeg
  rw [List.getD_eq_getElem?_getD, List.getD_eq_getElem?_getD]
  have hk : k - 1 < l.length := by omega
  rw [List.getElem?_reverse (by simpa using hk)]
  congr 2
  omega

/-- Amended claim C6: `volume_ratio` is missing exactly when there are
fewer than 20 days of volume data; with 20 or more days it equals the most
recent day's volume divided by the trailing 20-day mean volume (rounded to
2 decimals) when that mean is positive, and `0` — not missing — when the
mean is ≤ 0. -/
theorem volume_ratio_metric_eq_ref (vols : List ℚ) :
    volume_ratio_metric vols = volumeRatioRef vols := by
  unfold volume_ratio_metric volumeRatioRef
  by_cases h : 20 ≤ vols.length
  · have hnot : ¬ vols.length < 20 := by omega
    simp only [h, if_true, hnot, if_false]
    have hsum : (vols.reverse.take 20).sum = (vols.drop (vols.length - 20)).sum :=
      take_reverse_sum vols 20 h
    have hhead : vols.reverse.headD 0 = ilocNeg vols 1 := by
      rw [ilocNeg_eq_reverse_getD vols 1 le_rfl (by omega)]
      rw [List.headD_eq_head?_getD, List.head?_eq_getElem?, List.getD_eq_getElem?_getD]
    rw [hsum, hhead]
    by_cases hm : 0 < (vols.drop (vols.length - 20)).sum / 20
    · simp [hm]
    · simp [hm, round2_zero]
  · have hlt : vols.length < 20 := by omega
    simp [h, hlt]

/-- Counterexample to claim C7 as stated: with 20 days of close history
(enough to compute the 1-day and 5-day changes, and per the claim a zero
fallback for the 20-day change) the source marks all three change metrics
missing rather than falling back to zero. -/
theorem price_change_short_history_counterexample :
    price_change_metrics (List.replicate 20 1) = (none, none, none) := by
  norm_num [price_change_metrics]

/-- Amended C7 reference computation for a single horizon `n`: all change
metrics are missing when there are fewer than 21 days of history; with at
least 21 days, the percentage change of the most recent close versus the
close `n` trading days prior, rounded to 2 decimals, with a fallback of `0`
when that reference close is not positive. -/
def changeNdRef (closes : List ℚ) (n : Nat) : Option ℚ :=
  if closes.length < 21 then none
  else
    let current := closes.reverse.getD 0 0
    let ref := closes.reverse.getD n 0
    some (if 0 < ref then round2 ((current - ref) / ref * 100) else 0)

/-- Amended claim C7: the three change metrics are all marked missing when
there are fewer than 21 days of history (never a zero fallback for
insufficient history); with at least 21 days, `change_Nd` for N ∈ {1,5,20}
is the percentage change of the latest close versus the close N trading
days prior, with a `0` fallback only when the reference close is ≤ 0. -/
theorem price_change_metrics_eq_ref (closes : List ℚ) :
    price_change_metrics closes =
      (changeNdRef closes 1, changeNdRef closes 5, changeNdRef closes 20) := by
  unfold price_change_metrics changeNdRef
  by_cases h : 21 ≤ closes.length
  · have hnot : ¬ closes.length < 21 := by omega
    have h2 : 2 ≤ closes.length := by omega
    have h6 : 6 ≤ closes.length := by omega
    have e1 : ilocNeg closes 1 = closes.reverse.getD 0 0 :=
      ilocNeg_eq_reverse_getD closes 1 le_rfl (by omega)
    have e2 : ilocNeg closes 2 = closes.reverse.getD 1 0 :=
      ilocNeg_eq_reverse_getD closes 2 (by omega) (by omega)
    have e6 : ilocNeg closes 6 = closes.reverse.getD 5 0 :=
      ilocNeg_eq_reverse_getD closes 6 (by omega) (by omega)
    have e21 : ilocNeg closes 21 = closes.reverse.getD 20 0 :=
      ilocNeg_eq_reverse_getD closes 21 (by omega) (by omega)
    simp only [h, if_true, h2, h6, hnot, if_false, e1, e2, e6, e21]
  · have hlt : closes.length < 21 := by omega
    simp [h, hlt]

/-- One row of `data/03_va_sp500_raw_screening_data.csv`: the metric bag of
one surviving ticker, with `none` wherever the collector stored `np.nan`. -/
structure MetricBag where
  hist_vol_1y : Option ℚ
  volume_ratio : Option ℚ
  avg_volume_20d : Option ℚ
  change_1d : Option ℚ
  change_5d : Option ℚ
  change_20d : Option ℚ
  options_proxy : Option ℚ
  put_call_proxy : Option ℚ
  short_ratio : Option ℚ
  short_percent : Option ℚ
deriving DecidableEq

/-- The screening weight configuration (a module-level dict in the source). -/
structure Weights where
  volume_score : ℚ
  price_change_score : ℚ
  relative_strength_score : ℚ
  historical_vol_score : ℚ
  options_score : ℚ
  short_squeeze_score : ℚ
deriving DecidableEq

/-- Source `SCREENING_WEIGHTS` (lines 25-32). -/
def SCREENING_WEIGHTS : Weights :=
  { volume_score := 0.20
    price_change_score := 0.25
    relative_strength_score := 0.20
    historical_vol_score := 0.15
    options_score := 0.10
    short_squeeze_score := 0.10 }

/-- Imputed column `df['Volume_Ratio'].fillna(0)` (line 307). -/
def volumeRaw (b : MetricBag) : ℚ := b.volume_ratio.getD 0

/-- The price-momentum composite `price_composite` (lines 310-312),
computed on the imputed raw changes before normalization. -/
def priceCompositeRaw (b : MetricBag) : ℚ :=
  b.change_1d.getD 0 * 0.5 + b.change_5d.getD 0 * 0.3 + b.change_20d.getD 0 * 0.2

/-- Raw column `relative_strength` (line 316). -/
def relativeStrengthRaw (spy_return_20d : ℚ) (b : MetricBag) : ℚ :=
  b.change_20d.getD 0 - spy_return_20d

/-- Imputed column `df['Historical Vol Past 1 Year'].fillna(0)` (line 320). -/
def histVolRaw (b : MetricBag) : ℚ := b.hist_vol_1y.getD 0

/-- Imputed column `df['Options_Proxy'].fillna(0)` (line 323). -/
def optionsProxyRaw (b : MetricBag) : ℚ := b.options_proxy.getD 0

/-- Imputed column `df['Put_Call_Proxy'].fillna(1)` (line 324): the neutral-ratio default. -/
def putCallRaw (b : MetricBag) : ℚ := b.put_call_proxy.getD 1

/-- Imputed column `df['Short_Percent'].fillna(0)` (line 328). -/
def shortPercentRaw (b : MetricBag) : ℚ := b.short_percent.getD 0

/-- Imputed column `df['Short_Ratio'].fillna(0)` (line 329). -/
def shortRatioRaw (b : MetricBag) : ℚ := b.short_ratio.getD 0

/-- Imputed column `df['Price_Change_5d'].fillna(0)` (line 330). -/
def change5dRaw (b : MetricBag) : ℚ := b.change_5d.getD 0

/-- Sub-score `df['Volume_Score']` for one ticker (line 307). -/
def volumeScore (rows : List MetricBag) (b : MetricBag) : ℚ :=
  pctScore (rows.map volumeRaw) (volumeRaw b)

/-- Sub-score `df['Price_Change_Score']` for one ticker (line 313). -/
def priceChangeScore (rows : List MetricBag) (b : MetricBag) : ℚ :=
  pctScore (rows.map priceCompositeRaw) (priceCompositeRaw b)

/-- Sub-score `df['Relative_Strength_Score']` for one ticker (line 317). -/
def relativeStrengthScore (rows : List MetricBag) (spy_return_20d : ℚ)
    (b : MetricBag) : ℚ :=
  pctScore (rows.map (relativeStrengthRaw spy_return_20d))
    (relativeStrengthRaw spy_return_20d b)

/-- Sub-score `df['Historical_Vol_Score']` for one ticker (line 320). -/
def historicalVolScore (rows : List MetricBag) (b : MetricBag) : ℚ :=
  pctScore (rows.map histVolRaw) (histVolRaw b)

/-- Sub-score `df['Options_Score']` for one ticker (lines 323-325). -/
def optionsScore (rows : List MetricBag) (b : MetricBag) : ℚ :=
  pctScore (rows.map optionsProxyRaw) (optionsProxyRaw b) * 0.7 +
    pctScore (rows.map putCallRaw) (putCallRaw b) * 0.3

/-- Sub-score `df['Short_Squeeze_Score']` for one ticker (lines 328-331). -/
def shortSqueezeScore (rows : List MetricBag) (b : MetricBag) : ℚ :=
  pctScore (rows.map shortPercentRaw) (shortPercentRaw b) * 0.5 +
    pctScore (rows.map shortRatioRaw) (shortRatioRaw b) * 0.3 +
    pctScore (rows.map change5dRaw) (change5dRaw b) * 0.2

/-- Composite `df['Composite_Score']` for one ticker (lines 334-341). -/
def compositeScore (w : Weights) (rows : List MetricBag) (spy_return_20d : ℚ)
    (b : MetricBag) : ℚ :=
  volumeScore rows b * w.volume_score +
    priceChangeScore rows b * w.price_change_score +
    relativeStrengthScore rows spy_return_20d b * w.relative_strength_score +
    historicalVolScore rows b * w.historical_vol_score +
    optionsScore rows b * w.options_score +
    shortSqueezeScore rows b * w.short_squeeze_score

/-- Number of column entries strictly above `v`. -/
def countGT (l : List ℚ) (v : ℚ) : ℕ := l.countP (fun x => decide (v < x))

/-- pandas `rank(ascending=False)` (line 344): fractional (average) rank,
highest composite gets rank 1. -/
def avgRankDesc (l : List ℚ) (v : ℚ) : ℚ :=
  countGT l v + ((countEQ l v : ℚ) + 1) / 2

/-- The score columns appended by `calculate_screening_scores` for one row. -/
structure ScoreRow where
  volume_score : ℚ
  price_change_score : ℚ
  relative_strength_score : ℚ
  historical_vol_score : ℚ
  options_score : ℚ
  short_squeeze_score : ℚ
  composite_score : ℚ
  rank : ℚ
deriving DecidableEq

/-- All score columns of one ticker's output row (lines 306-344). -/
def scoreRow (w : Weights) (rows : List MetricBag) (spy_return_20d : ℚ)
    (b : MetricBag) : ScoreRow :=
  { volume_score := volumeScore rows b
    price_change_score := priceChangeScore rows b
    relative_strength_score := relativeStrengthScore rows spy_return_20d b
    historical_vol_score := historicalVolScore rows b
    options_score := optionsScore rows b
    short_squeeze_score := shortSqueezeScore rows b
    composite_score := compositeScore w rows spy_return_20d b
    rank := avgRankDesc (rows.map (compositeScore w rows spy_return_20d))
      (compositeScore w rows spy_return_20d b) }

/-- The score table, one output row per input row, in input order.  The
source's final `sort_values` (line 345) only reorders rows for the output
file and changes no per-ticker value, so claims are stated on this table. -/
def scoreTable (w : Weights) (rows : List MetricBag) (spy_return_20d : ℚ) :
    List ScoreRow :=
  rows.map (scoreRow w rows spy_return_20d)

/-- Source `calculate_screening_scores` (lines 287-348): the source always scores
with the module-level `SCREENING_WEIGHTS`; `spy_return_20d` is the fetched
benchmark return (or the `2.0` fallback substituted on a fetch failure). -/
def calculate_screening_scores (rows : List MetricBag) (spy_return_20d : ℚ) :
    List ScoreRow :=
  scoreTable SCREENING_WEIGHTS rows spy_return_20d

/-- A metric bag with every metric missing. -/
def allMissingBag : MetricBag :=
  ⟨none, none, none, none, none, none, none, none, none, none⟩

/-- The documented imputation defaults as a bag: every metric `0` except
the put/call proxy, which defaults to the neutral ratio `1`. -/
def defaultImputedBag : MetricBag :=
  ⟨some 0, some 0, some 0, some 0, some 0, some 0, some 0, some 1, some 0, some 0⟩

/-- A weight configuration whose sum (6) is far outside `1.0 ± 1e-9`. -/
def badWeights : Weights := ⟨1, 1, 1, 1, 1, 1⟩

theorem pctScore_singleton (v : ℚ) : pctScore [v] v = 100 := by
  unfold pctScore avgRank countLT countEQ
  simp [List.countP_cons, lt_irrefl]

theorem avgRankDesc_singleton (v : ℚ) : avgRankDesc [v] v = 1 := by
  unfold avgRankDesc countGT countEQ
  simp [List.countP_cons, lt_irrefl]

/-- Counterexample to claim C2 as stated: a weight configuration summing to
6 (far outside 1.0 ± 1e-9) is accepted without any error — the scorer
computes a complete output row from it (and the out-of-range weights leak
straight into the composite, here 600). -/
theorem weights_never_validated_counterexample :
    (badWeights.volume_score + badWeights.price_change_score +
        badWeights.relative_strength_score + badWeights.historical_vol_score +
        badWeights.options_score + badWeights.short_squeeze_score = 6) ∧
      scoreTable badWeights [allMissingBag] 2 =
        [⟨100, 100, 100, 100, 100, 100, 600, 1⟩] := by
  constructor
  · norm_num [badWeights]
  · unfold scoreTable scoreRow
    simp only [List.map_cons, List.map_nil]
    rw [List.cons.injEq]
    refine ⟨?_, rfl⟩
    unfold compositeScore volumeScore priceChangeScore relativeStrengthScore
      historicalVolScore optionsScore shortSqueezeScore
    simp only [List.map_cons, List.map_nil, pctScore_singleton]
    rw [ScoreRow.mk.injEq]
    norm_num [badWeights]
    exact avgRankDesc_singleton 600

/-- Amended claim C2: the shipped `SCREENING_WEIGHTS` do sum exactly to 1,
but no validation of any weight configuration ever happens and no
`ConfigurationError` exists in the code: the scorer computes a full score
row for every input row under an arbitrary weight configuration, using the
weights exactly as given (no renormalization). -/
theorem screening_weights_unvalidated (w : Weights) (rows : List MetricBag)
    (spy_return_20d : ℚ) :
    (SCREENING_WEIGHTS.volume_score + SCREENING_WEIGHTS.price_change_score +
        SCREENING_WEIGHTS.relative_strength_score +
        SCREENING_WEIGHTS.historical_vol_score + SCREENING_WEIGHTS.options_score +
        SCREENING_WEIGHTS.short_squeeze_score = 1) ∧
      (scoreTable w rows spy_return_20d).length = rows.length := by
  refine ⟨by norm_num [SCREENING_WEIGHTS], ?_⟩
  simp [scoreTable]

/-- Claim C8: a ticker whose metrics are all missing still gets an output
row (one output row per input row), every score in that row is computed
from the documented imputed defaults (`0`, or `1` for the put/call proxy),
and — scores being total `ℚ` values in this embedding, as the source ranks
only columns already passed through `fillna` — its composite and rank are
well-defined numbers. -/
theorem all_missing_ticker_scored (rows : List MetricBag) (spy_return_20d : ℚ) :
    (calculate_screening_scores rows spy_return_20d).length = rows.length ∧
      scoreRow SCREENING_WEIGHTS rows spy_return_20d allMissingBag =
        scoreRow SCREENING_WEIGHTS rows spy_return_20d defaultImputedBag ∧
      ∀ (i : ℕ) (b : MetricBag), rows[i]? = some b →
        (calculate_screening_scores rows spy_return_20d)[i]? =
          some (scoreRow SCREENING_WEIGHTS rows spy_return_20d b) := by
  refine ⟨by simp [calculate_screening_scores, scoreTable], rfl, ?_⟩
  intro i b hib
  simp [calculate_screening_scores, scoreTable, List.getElem?_map, hib]

/-- Witness for C8 on a one-ticker snapshot whose only bag is all-missing. -/
theorem all_missing_ticker_scored_witness :
    (calculate_screening_scores [allMissingBag] 2).length = 1 ∧
      ([allMissingBag] : List MetricBag)[0]? = some allMissingBag ∧
      (calculate_screening_scores [allMissingBag] 2)[0]? =
        some (scoreRow SCREENING_WEIGHTS [allMissingBag] 2 allMissingBag) :=
  ⟨(all_missing_ticker_scored [allMissingBag] 2).1, rfl,
    (all_missing_ticker_scored [allMissingBag] 2).2.2 0 allMissingBag rfl⟩

theorem pctScore_perm (l l2 : List ℚ) (h : l.Perm l2) (v : ℚ) :
    pctScore l v = pctScore l2 v := by
  unfold pctScore avgRank countLT countEQ
  rw [h.countP_eq, h.countP_eq, h.length_eq]

/-- Claim C5: the composite score of any given metric bag is invariant
under permutation of the input snapshot — it is a function of the multiset
of metric bags, not of row order. -/
theorem composite_score_perm_invariant (rows rows2 : List MetricBag)
    (spy_return_20d : ℚ) (h : rows.Perm rows2) (b : MetricBag) :
    compositeScore SCREENING_WEIGHTS rows spy_return_20d b =
      compositeScore SCREENING_WEIGHTS rows2 spy_return_20d b := by
  unfold compositeScore volumeScore priceChangeScore relativeStrengthScore
    historicalVolScore optionsScore shortSqueezeScore
  rw [pctScore_perm _ _ (h.map volumeRaw),
    pctScore_perm _ _ (h.map priceCompositeRaw),
    pctScore_perm _ _ (h.map (relativeStrengthRaw spy_return_20d)),
    pctScore_perm _ _ (h.map histVolRaw),
    pctScore_perm _ _ (h.map optionsProxyRaw),
    pctScore_perm _ _ (h.map putCallRaw),
    pctScore_perm _ _ (h.map shortPercentRaw),
    pctScore_perm _ _ (h.map shortRatioRaw),
    pctScore_perm _ _ (h.map change5dRaw)]

/-- Witness for C5 on a concrete two-row snapshot and its swap. -/
theorem composite_score_perm_invariant_witness :
    ([allMissingBag, defaultImputedBag] : List MetricBag).Perm
        [defaultImputedBag, allMissingBag] ∧
      compositeScore SCREENING_WEIGHTS [allMissingBag, defaultImputedBag] 2
          allMissingBag =
        compositeScore SCREENING_WEIGHTS [defaultImputedBag, allMissingBag] 2
          allMissingBag :=
  ⟨List.Perm.swap defaultImputedBag allMissingBag [],
    composite_score_perm_invariant _ _ 2
      (List.Perm.swap defaultImputedBag allMissingBag []) allMissingBag⟩

theorem pctScore_mem_pos (l : List ℚ) (v : ℚ) (h : v ∈ l) :
    0 < pctScore l v := by
  unfold pctScore avgRank
  have hlen : (0:ℚ) < (l.length : ℚ) := by
    exact_mod_cast List.length_pos.mpr (List.ne_nil_of_mem h)
  have h1 : (0:ℚ) ≤ (countLT l v : ℚ) := Nat.cast_nonneg _
  have h2 : (0:ℚ) ≤ (countEQ l v : ℚ) := Nat.cast_nonneg _
  have hnum : (0:ℚ) < (countLT l v : ℚ) + ((countEQ l v : ℚ) + 1) / 2 := by
    linarith
  have := div_pos hnum hlen
  linarith

theorem countLT_add_countEQ_le (l : List ℚ) (v : ℚ) :
    countLT l v + countEQ l v ≤ l.length := by
  have hsplit := List.length_eq_countP_add_countP
    (p := fun y => decide (y < v)) (l := l)
  simp only [decide_not, Bool.decide_eq_true] at hsplit
  have hmono : countEQ l v ≤ l.countP (fun x => !decide (x < v)) := by
    apply List.countP_mono_left
    intro x hx hxv
    simp only [decide_eq_true_eq] at hxv
    simp [hxv, lt_irrefl]
  unfold countLT
  omega

theorem countEQ_pos_of_mem (l : List ℚ) (v : ℚ) (h : v ∈ l) :
    0 < countEQ l v := by
  unfold countEQ
  rw [List.countP_pos_iff]
  exact ⟨v, h, by simp⟩

theorem pctScore_mem_le (l : List ℚ) (v : ℚ) (h : v ∈ l) :
    pctScore l v ≤ 100 := by
  unfold pctScore avgRank
  have hlen : (0:ℚ) < (l.length : ℚ) := by
    exact_mod_cast List.length_pos.mpr (List.ne_nil_of_mem h)
  have hle : countLT l v + countEQ l v ≤ l.length := countLT_add_countEQ_le l v
  have he : 0 < countEQ l v := countEQ_pos_of_mem l v h
  have hleQ : (countLT l v : ℚ) + (countEQ l v : ℚ) ≤ (l.length : ℚ) := by
    exact_mod_cast hle
  have heQ : (1:ℚ) ≤ (countEQ l v : ℚ) := by exact_mod_cast he
  have hnum : (countLT l v : ℚ) + ((countEQ l v : ℚ) + 1) / 2 ≤ (l.length : ℚ) := by
    linarith
  have hdiv : ((countLT l v : ℚ) + ((countEQ l v : ℚ) + 1) / 2) / (l.length : ℚ) ≤ 1 :=
    (div_le_one hlen).mpr hnum
  linarith

/-- Claim C10: for a bag present in a non-empty snapshot, each of the six
sub-scores and the composite score lies in the half-open interval (0, 100]:
every percentile is strictly positive and at most 100, the inner weights of
the options and short-squeeze composites sum to 1, and the outer
`SCREENING_WEIGHTS` sum to 1. -/
theorem scores_in_unit_interval (rows : List MetricBag) (spy_return_20d : ℚ)
    (b : MetricBag) (h : b ∈ rows) :
    (0 < volumeScore rows b ∧ volumeScore rows b ≤ 100) ∧
      (0 < priceChangeScore rows b ∧ priceChangeScore rows b ≤ 100) ∧
      (0 < relativeStrengthScore rows spy_return_20d b ∧
        relativeStrengthScore rows spy_return_20d b ≤ 100) ∧
      (0 < historicalVolScore rows b ∧ historicalVolScore rows b ≤ 100) ∧
      (0 < optionsScore rows b ∧ optionsScore rows b ≤ 100) ∧
      (0 < shortSqueezeScore rows b ∧ shortSqueezeScore rows b ≤ 100) ∧
      (0 < compositeScore SCREENING_WEIGHTS rows spy_return_20d b ∧
        compositeScore SCREENING_WEIGHTS rows spy_return_20d b ≤ 100) := by
  have P : ∀ f : MetricBag → ℚ,
      0 < pctScore (rows.map f) (f b) ∧ pctScore (rows.map f) (f b) ≤ 100 :=
    fun f => ⟨pctScore_mem_pos _ _ (List.mem_map_of_mem f h),
      pctScore_mem_le _ _ (List.mem_map_of_mem f h)⟩
  obtain ⟨v1, v2⟩ := P volumeRaw
  obtain ⟨p1, p2⟩ := P priceCompositeRaw
  obtain ⟨r1, r2⟩ := P (relativeStrengthRaw spy_return_20d)
  obtain ⟨hv1, hv2⟩ := P histVolRaw
  obtain ⟨o1, o2⟩ := P optionsProxyRaw
  obtain ⟨q1, q2⟩ := P putCallRaw
  obtain ⟨s1, s2⟩ := P shortPercentRaw
  obtain ⟨t1, t2⟩ := P shortRatioRaw
  obtain ⟨c1, c2⟩ := P change5dRaw
  unfold compositeScore volumeScore priceChangeScore relativeStrengthScore
    historicalVolScore optionsScore shortSqueezeScore
  simp only [SCREENING_WEIGHTS]
  norm_num
  refine ⟨⟨v1, v2⟩, ⟨p1, p2⟩, ⟨r1, r2⟩, ⟨hv1, hv2⟩,
    ⟨by linarith, by linarith⟩, ⟨by linarith, by linarith⟩,
    ⟨by linarith, by linarith⟩⟩

/-- Witness for C10 on a concrete one-row snapshot. -/
theorem scores_in_unit_interval_witness :
    defaultImputedBag ∈ ([defaultImputedBag] : List MetricBag) ∧
      (0 < volumeScore [defaultImputedBag] defaultImputedBag ∧
          volumeScore [defaultImputedBag] defaultImputedBag ≤ 100) ∧
        (0 < priceChangeScore [defaultImputedBag] defaultImputedBag ∧
          priceChangeScore [defaultImputedBag] defaultImputedBag ≤ 100) ∧
        (0 < relativeStrengthScore [defaultImputedBag] 2 defaultImputedBag ∧
          relativeStrengthScore [defaultImputedBag] 2 defaultImputedBag ≤ 100) ∧
        (0 < historicalVolScore [defaultImputedBag] defaultImputedBag ∧
          historicalVolScore [defaultImputedBag] defaultImputedBag ≤ 100) ∧
        (0 < optionsScore [defaultImputedBag] defaultImputedBag ∧
          optionsScore [defaultImputedBag] defaultImputedBag ≤ 100) ∧
        (0 < shortSqueezeScore [defaultImputedBag] defaultImputedBag ∧
          shortSqueezeScore [defaultImputedBag] defaultImputedBag ≤ 100) ∧
        (0 < compositeScore SCREENING_WEIGHTS [defaultImputedBag] 2 defaultImputedBag ∧
          compositeScore SCREENING_WEIGHTS [defaultImputedBag] 2 defaultImputedBag ≤ 100) :=
  ⟨List.mem_singleton.mpr rfl,
    scores_in_unit_interval [defaultImputedBag] 2 defaultImputedBag
      (List.mem_singleton.mpr rfl)⟩

/-- Claim C4: every member of a tie group receives the identical normalized
score, equal to the mean of the tie group's ordinal ranks
(`countLT + 1, …, countLT + countEQ`) converted to the 0-100 percentile
scale (divided by the column length, times 100). -/
theorem tie_group_average_rank (l : List ℚ) (v w : ℚ) (h : v ∈ l)
    (hw : w ∈ l) (hwv : w = v) :
    pctScore l w = pctScore l v ∧
      pctScore l v =
        ((∑ i ∈ Finset.range (countEQ l v), ((countLT l v : ℚ) + 1 + i)) /
            (countEQ l v)) / l.length * 100 := by
  have he : 0 < countEQ l v := countEQ_pos_of_mem l v h
  have he1 : 1 ≤ countEQ l v := he
  have heQ : ((countEQ l v : ℚ)) ≠ 0 := by
    have : (0:ℚ) < (countEQ l v : ℚ) := by exact_mod_cast he
    linarith
  have hgauss : (∑ i ∈ Finset.range (countEQ l v), (i:ℚ)) * 2 =
      (countEQ l v : ℚ) * ((countEQ l v : ℚ) - 1) := by
    have h4 : (((∑ i ∈ Finset.range (countEQ l v), i) * 2 : ℕ) : ℚ) =
        ((countEQ l v * (countEQ l v - 1) : ℕ) : ℚ) :=
      congrArg Nat.cast (Finset.sum_range_id_mul_two (countEQ l v))
    push_cast [Nat.cast_sub he1] at h4
    exact h4
  have hS : (∑ i ∈ Finset.range (countEQ l v), (i:ℚ)) =
      ((countEQ l v : ℚ) * ((countEQ l v : ℚ) - 1)) / 2 := by
    linarith [hgauss]
  have hsum : (∑ i ∈ Finset.range (countEQ l v), ((countLT l v : ℚ) + 1 + (i:ℚ))) =
      (countEQ l v : ℚ) * ((countLT l v : ℚ) + 1) +
        (∑ i ∈ Finset.range (countEQ l v), (i:ℚ)) := by
    rw [Finset.sum_add_distrib, Finset.sum_const, Finset.card_range, nsmul_eq_mul]
  have key : avgRank l v =
      (∑ i ∈ Finset.range (countEQ l v), ((countLT l v : ℚ) + 1 + i)) /
        (countEQ l v) := by
    unfold avgRank
    rw [eq_div_iff heQ, hsum, hS]
    ring
  refine ⟨by rw [hwv], ?_⟩
  unfold pctScore
  rw [key]

/-- Witness for C4 on a column with a two-element tie group: both copies of
`5` occupy ordinal ranks 1 and 2, average 1.5, percentile 50. -/
theorem tie_group_average_rank_witness :
    (5:ℚ) ∈ ([5, 5, 7] : List ℚ) ∧ (5:ℚ) = (5:ℚ) ∧
      (pctScore [5, 5, 7] 5 = pctScore [5, 5, 7] 5 ∧
        pctScore [5, 5, 7] 5 =
          ((∑ i ∈ Finset.range (countEQ [5, 5, 7] 5),
              ((countLT [5, 5, 7] 5 : ℚ) + 1 + i)) /
            (countEQ [5, 5, 7] 5)) / ([5, 5, 7] : List ℚ).length * 100) :=
  ⟨by simp, rfl, tie_group_average_rank [5, 5, 7] 5 5 (by simp) (by simp) rfl⟩

theorem countEQ_eq_one_of_nodup (l : List ℚ) (hnd : l.Nodup) (v : ℚ) (h : v ∈ l) :
    countEQ l v = 1 := by
  induction l with
  | nil => cases h
  | cons a t ih =>
    rw [List.nodup_cons] at hnd
    unfold countEQ at ih ⊢
    rw [List.countP_cons]
    rcases List.mem_cons.mp h with rfl | hvt
    · have ht : t.countP (fun x => decide (x = v)) = 0 := by
        rw [List.countP_eq_zero]
        intro x hx
        simp only [decide_eq_true_eq]
        intro hxv
        exact hnd.1 (hxv ▸ hx)
      simp [ht]
    · have hav : ¬ (a = v) := fun hav => hnd.1 (hav ▸ hvt)
      have h1 := ih hnd.2 hvt
      simp [h1, hav]

theorem countLT_eq_card (l : List ℚ) (hnd : l.Nodup) (v : ℚ) :
    countLT l v = (l.toFinset.filter (fun x => x < v)).card := by
  unfold countLT
  rw [List.countP_eq_length_filter,
    ← List.toFinset_card_of_nodup (hnd.filter _), List.toFinset_filter]
  congr 1
  apply Finset.filter_congr
  intro x _
  simp

theorem card_filter_lt_strictMono {s : Finset ℚ} {a b : ℚ} (ha : a ∈ s)
    (hab : a < b) :
    (s.filter (fun x => x < a)).card < (s.filter (fun x => x < b)).card := by
  apply Finset.card_lt_card
  rw [Finset.ssubset_iff_of_subset
    (Finset.monotone_filter_right s (fun x hx => lt_trans hx hab))]
  exact ⟨a, Finset.mem_filter.mpr ⟨ha, hab⟩,
    fun hmem => lt_irrefl a (Finset.mem_filter.mp hmem).2⟩

theorem countLT_lt_length (l : List ℚ) (hnd : l.Nodup) (v : ℚ) (hv : v ∈ l) :
    countLT l v < l.length := by
  rw [countLT_eq_card l hnd v, ← List.toFinset_card_of_nodup hnd]
  apply Finset.card_lt_card
  rw [Finset.ssubset_iff_of_subset (Finset.filter_subset _ _)]
  exact ⟨v, List.mem_toFinset.mpr hv, by simp⟩

theorem countLT_inj (l : List ℚ) (hnd : l.Nodup) (a b : ℚ) (ha : a ∈ l)
    (hb : b ∈ l) (hab : countLT l a = countLT l b) : a = b := by
  by_contra hne
  rcases lt_or_gt_of_ne hne with h | h
  · have hc := card_filter_lt_strictMono (List.mem_toFinset.mpr ha) h
    rw [← countLT_eq_card l hnd a, ← countLT_eq_card l hnd b] at hc
    omega
  · have hc := card_filter_lt_strictMono (List.mem_toFinset.mpr hb) h
    rw [← countLT_eq_card l hnd b, ← countLT_eq_card l hnd a] at hc
    omega

theorem image_countLT_eq_range (l : List ℚ) (hnd : l.Nodup) :
    l.toFinset.image (countLT l) = Finset.range l.length := by
  have hcard : l.toFinset.card = l.length := List.toFinset_card_of_nodup hnd
  apply Finset.eq_of_subset_of_card_le
  · intro k hk
    rw [Finset.mem_image] at hk
    obtain ⟨v, hv, rfl⟩ := hk
    rw [Finset.mem_range]
    exact countLT_lt_length l hnd v (List.mem_toFinset.mp hv)
  · rw [Finset.card_range, ← hcard]
    apply le_of_eq
    symm
    apply Finset.card_image_of_injOn
    intro a ha b hb hfab
    exact countLT_inj l hnd a b (List.mem_toFinset.mp (Finset.mem_coe.mp ha))
      (List.mem_toFinset.mp (Finset.mem_coe.mp hb)) hfab

theorem map_countLT_perm_range (l : List ℚ) (hnd : l.Nodup) :
    (l.map (countLT l)).Perm (List.range l.length) := by
  have h1 : (l.map (countLT l)).Nodup :=
    List.Nodup.map_on (fun a ha b hb hfab => countLT_inj l hnd a b ha hb hfab) hnd
  have h2 : (List.range l.length).Nodup := List.nodup_range l.length
  rw [List.perm_ext_iff_of_nodup h1 h2]
  intro k
  rw [List.mem_range, List.mem_map]
  constructor
  · rintro ⟨v, hv, rfl⟩
    exact countLT_lt_length l hnd v hv
  · intro hk
    have himg : k ∈ l.toFinset.image (countLT l) := by
      rw [image_countLT_eq_range l hnd, Finset.mem_range]
      exact hk
    rw [Finset.mem_image] at himg
    obtain ⟨v, hv, hvk⟩ := himg
    exact ⟨v, List.mem_toFinset.mp hv, hvk⟩

/-- Claim C3: on a column of N pairwise-distinct values, the normalized
scores are exactly a permutation of {100/N, 200/N, …, 100} (written below
as (k+1)·100/N for k ranging over 0, …, N-1). -/
theorem normalize_score_nodup_perm (l : List ℚ) (hnd : l.Nodup) :
    (normalize_score l).Perm
      ((List.range l.length).map (fun (k : ℕ) => ((k:ℚ) + 1) * 100 / l.length)) := by
  have hform : ∀ v ∈ l,
      pctScore l v = ((countLT l v : ℚ) + 1) * 100 / l.length := by
    intro v hv
    unfold pctScore avgRank
    rw [countEQ_eq_one_of_nodup l hnd v hv]
    push_cast
    ring
  have hmap : normalize_score l =
      (l.map (countLT l)).map (fun (k : ℕ) => ((k:ℚ) + 1) * 100 / l.length) := by
    unfold normalize_score
    rw [List.map_map]
    exact List.map_congr_left (fun v hv => by
      simp only [Function.comp]
      exact hform v hv)
  rw [hmap]
  exact (map_countLT_perm_range l hnd).map _

/-- Witness for C3 on the duplicate-free 3-element column [3, 1, 2]: the
scores are a permutation of {100/3, 200/3, 100}. -/
theorem normalize_score_nodup_perm_witness :
    ([3, 1, 2] : List ℚ).Nodup ∧
      (normalize_score [3, 1, 2]).Perm
        ((List.range ([3, 1, 2] : List ℚ).length).map
          (fun (k : ℕ) => ((k:ℚ) + 1) * 100 / ([3, 1, 2] : List ℚ).length)) :=
  ⟨by norm_num, normalize_score_nodup_perm [3, 1, 2] (by norm_num)⟩

end StockScreening
